import Mathlib

/-!
Verification development for the Eiten portfolio manager
(src/portfolio_manager.py).  The return-estimation pipeline
(Eiten.create_returns, Eiten.calculate_percentage_change), the
covariance step and the orchestration of Eiten.run_strategies, and
ArgChecker.check_arguments are embedded shallowly.

Modelling conventions:
  * Python floats are modelled as exact numbers: prices and percentage
    returns as rationals, log returns as reals (math.log is Real.log).
  * A Python exception is an Except error.  In the create_returns loop the
    only raising operations are the division close_prices[i]/close_prices[i-1]
    (ZeroDivisionError on a zero divisor) and math.log (ValueError on a
    non-positive argument); the later percentage/mean computations divide by
    the same prices and by total_data - i >= 1, which cannot raise once the
    log comprehension has succeeded, so they are modelled total.
  * np.mean of an empty list yields NaN (the RuntimeWarning is suppressed by
    warnings.filterwarnings in the source); NaN is modelled as Option.none.
  * np.array on the lists of rows is the identity in this model; all inputs
    considered below are rectangular or single-row, where that is faithful.
  * External collaborators (DataEngine, StrategyManager, BackTester,
    MontoCarloSimulator, matplotlib) are not part of src/: run_strategies is
    embedded as the sequence of collaborator calls it issues, parametrised
    over the opaque values the collaborators return.
-/

/-- The Python exceptions that the embedded code can raise. -/
inductive PyErr where
  | zeroDivisionError
  | valueError
  deriving DecidableEq

/-- Eiten.calculate_percentage_change: return ((new - old) * 100) / old. -/
def calculate_percentage_change (old new : ℚ) : ℚ :=
  (new - old) * 100 / old

/-- One element of the log-return list comprehension in create_returns:
Python first evaluates close_prices[i] / close_prices[i - 1], raising
ZeroDivisionError when the divisor is zero, then math.log, raising
ValueError (math domain error) when the quotient is not positive. -/
noncomputable def logReturnElem (close : List ℚ) (i : ℕ) : Except PyErr ℝ :=
  if close.getD (i - 1) 0 = 0 then .error .zeroDivisionError
  else if close.getD i 0 / close.getD (i - 1) 0 ≤ 0 then .error .valueError
  else .ok (Real.log ((close.getD i 0 / close.getD (i - 1) 0 : ℚ) : ℝ))

/-- Evaluate a list comprehension whose element computation can raise:
elements are computed left to right and the first exception propagates. -/
def exceptMap (f : α → Except PyErr β) : List α → Except PyErr (List β)
  | [] => .ok []
  | a :: l => do
      let b ← f a
      let bs ← exceptMap f l
      .ok (b :: bs)

/-- The log_returns comprehension of create_returns, over
range(1, len(close_prices)). -/
noncomputable def log_returns (close : List ℚ) : Except PyErr (List ℝ) :=
  exceptMap (logReturnElem close) (List.range' 1 (close.length - 1))

/-- The percentage_returns comprehension of create_returns (total in this
model: it raises only when the log comprehension before it already raised). -/
def percentage_returns (close : List ℚ) : List ℚ :=
  (List.range' 1 (close.length - 1)).map fun i =>
    calculate_percentage_change (close.getD (i - 1) 0) (close.getD i 0)

/-- np.mean of a list: sum over length, NaN (none) on an empty list. -/
def npMean (l : List ℚ) : Option ℚ :=
  if l.isEmpty then none else some (l.sum / l.length)

/-- The future_expected_returns expression of create_returns:
np.mean of calculate_percentage_change(close[i-1], close[i]) / (total_data - i)
for i in range(1, len(close_prices)), with total_data = len(close_prices). -/
def future_expected_returns (close : List ℚ) : Option ℚ :=
  npMean ((List.range' 1 (close.length - 1)).map fun i =>
    calculate_percentage_change (close.getD (i - 1) 0) (close.getD i 0) /
      ((close.length : ℚ) - (i : ℚ)))

/-- One iteration of the create_returns loop for a single close-price
series: the log-return row (which can raise), then the percentage-return
row and the recency-weighted expected-return scalar. -/
noncomputable def processSeries (close : List ℚ) :
    Except PyErr (Option ℚ × List ℝ × List ℚ) := do
  let lr ← log_returns close
  .ok (future_expected_returns close, lr, percentage_returns close)

/-- Eiten.create_returns: loop over the series, appending to the three
accumulators, then return (predicted_return_vectors, returns_matrix,
returns_matrix_percentages). -/
noncomputable def create_returns (hist : List (List ℚ)) :
    Except PyErr (List (Option ℚ) × List (List ℝ) × List (List ℚ)) := do
  let rows ← exceptMap processSeries hist
  .ok (rows.map (fun r => r.1), rows.map (fun r => r.2.1),
    rows.map (fun r => r.2.2))

/-- A series of at least two strictly positive prices. -/
def validSeries (close : List ℚ) : Prop :=
  2 ≤ close.length ∧ ∀ p ∈ close, 0 < p

instance (close : List ℚ) : Decidable (validSeries close) := by
  unfold validSeries; infer_instance

/-- The value of the log-return row on a series that raises no exception. -/
noncomputable def logRow (close : List ℚ) : List ℝ :=
  (List.range' 1 (close.length - 1)).map fun i =>
    Real.log ((close.getD i 0 / close.getD (i - 1) 0 : ℚ) : ℝ)

theorem exceptMap_ok {α β : Type _} {f : α → Except PyErr β} {g : α → β}
    (l : List α) (h : ∀ a ∈ l, f a = .ok (g a)) :
    exceptMap f l = .ok (l.map g) := by
  induction l with
  | nil => rfl
  | cons a l ih =>
      have ha := h a (List.mem_cons_self a l)
      have hl := ih fun x hx => h x (List.mem_cons_of_mem a hx)
      simp [exceptMap, ha, hl, Bind.bind, Except.bind]

theorem validSeries_getD_pos {close : List ℚ} (hv : validSeries close)
    {i : ℕ} (hi : i < close.length) : 0 < close.getD i 0 := by
  rw [List.getD_eq_getElem close 0 hi]
  exact hv.2 _ (List.getElem_mem hi)

theorem logReturnElem_ok {close : List ℚ} (hv : validSeries close)
    {i : ℕ} (_h1 : 1 ≤ i) (h2 : i < close.length) :
    logReturnElem close i =
      .ok (Real.log ((close.getD i 0 / close.getD (i - 1) 0 : ℚ) : ℝ)) := by
  have hd : 0 < close.getD (i - 1) 0 :=
    validSeries_getD_pos hv (lt_of_le_of_lt (Nat.sub_le i 1) h2)
  have hn : 0 < close.getD i 0 := validSeries_getD_pos hv h2
  have hq : 0 < close.getD i 0 / close.getD (i - 1) 0 := div_pos hn hd
  unfold logReturnElem
  rw [if_neg (ne_of_gt hd), if_neg (not_le.mpr hq)]

theorem log_returns_ok {close : List ℚ} (hv : validSeries close) :
    log_returns close = .ok (logRow close) := by
  unfold log_returns logRow
  refine exceptMap_ok _ fun i hi => ?_
  obtain ⟨h1, h2⟩ := List.mem_range'_1.mp hi
  have hlen : 1 + (close.length - 1) = close.length :=
    Nat.add_sub_cancel' (le_trans (by norm_num) hv.1)
  exact logReturnElem_ok hv h1 (hlen ▸ h2)

theorem processSeries_ok {close : List ℚ} (hv : validSeries close) :
    processSeries close =
      .ok (future_expected_returns close, logRow close, percentage_returns close) := by
  unfold processSeries
  rw [log_returns_ok hv]
  rfl

theorem create_returns_ok {hist : List (List ℚ)}
    (hv : ∀ s ∈ hist, validSeries s) :
    create_returns hist =
      .ok (hist.map future_expected_returns, hist.map logRow,
        hist.map percentage_returns) := by
  unfold create_returns
  rw [exceptMap_ok hist fun s hs => processSeries_ok (hv s hs)]
  simp [Bind.bind, Except.bind, Function.comp]

theorem getD_map_of_lt {α β : Type _} (f : α → β) (l : List α) (k : ℕ)
    (h : k < l.length) (d : α) (d' : β) :
    (l.map f).getD k d' = f (l.getD k d) := by
  rw [List.getD_eq_getElem _ _ (by simpa using h), List.getD_eq_getElem _ _ h,
    List.getElem_map]

theorem range'_one_getD {n m : ℕ} (h : m < n) :
    (List.range' 1 n).getD m 0 = 1 + m := by
  rw [List.getD_eq_getElem?_getD, List.getElem?_range' 1 1 h]
  simp

theorem logRow_length (close : List ℚ) :
    (logRow close).length = close.length - 1 := by
  simp [logRow]

theorem percentage_returns_length (close : List ℚ) :
    (percentage_returns close).length = close.length - 1 := by
  simp [percentage_returns]

theorem logRow_getD {close : List ℚ} {t : ℕ} (h1 : 1 ≤ t)
    (h2 : t ≤ close.length - 1) :
    (logRow close).getD (t - 1) 0 =
      Real.log ((close.getD t 0 : ℝ) / (close.getD (t - 1) 0 : ℝ)) := by
  have hm : t - 1 < close.length - 1 := by omega
  unfold logRow
  rw [getD_map_of_lt _ _ _ (by simpa using hm) 0, range'_one_getD hm]
  have ht : 1 + (t - 1) = t := by omega
  rw [ht, Rat.cast_div]

theorem percentage_returns_getD {close : List ℚ} {t : ℕ} (h1 : 1 ≤ t)
    (h2 : t ≤ close.length - 1) :
    (percentage_returns close).getD (t - 1) 0 =
      100 * (close.getD t 0 - close.getD (t - 1) 0) / close.getD (t - 1) 0 := by
  have hm : t - 1 < close.length - 1 := by omega
  unfold percentage_returns
  rw [getD_map_of_lt _ _ _ (by simpa using hm) 0, range'_one_getD hm]
  have ht : 1 + (t - 1) = t := by omega
  rw [ht, calculate_percentage_change]
  ring

/-- C1: for aligned series of length L >= 2 with strictly positive prices,
create_returns returns a log-return matrix and a percentage-return matrix
with one row per input series and L - 1 columns, where column t - 1 holds
ln(price[t]/price[t-1]) respectively 100*(price[t]-price[t-1])/price[t-1]. -/
theorem create_returns_matrix_shape_and_entries
    (hist : List (List ℚ)) (L : ℕ) (hL : 2 ≤ L)
    (hlen : ∀ s ∈ hist, s.length = L)
    (hpos : ∀ s ∈ hist, ∀ p ∈ s, 0 < p) :
    ∃ eR lM pM, create_returns hist = .ok (eR, lM, pM) ∧
      lM.length = hist.length ∧ pM.length = hist.length ∧
      (∀ row ∈ lM, row.length = L - 1) ∧
      (∀ row ∈ pM, row.length = L - 1) ∧
      (∀ k, k < hist.length → ∀ t, 1 ≤ t → t ≤ L - 1 →
        (lM.getD k []).getD (t - 1) 0 =
          Real.log (((hist.getD k []).getD t 0 : ℝ) /
            ((hist.getD k []).getD (t - 1) 0 : ℝ)) ∧
        (pM.getD k []).getD (t - 1) 0 =
          100 * ((hist.getD k []).getD t 0 - (hist.getD k []).getD (t - 1) 0) /
            (hist.getD k []).getD (t - 1) 0) := by
  have hv : ∀ s ∈ hist, validSeries s := fun s hs =>
    ⟨(hlen s hs) ▸ hL, hpos s hs⟩
  refine ⟨_, _, _, create_returns_ok hv, by simp, by simp, ?_, ?_, ?_⟩
  · intro row hrow
    obtain ⟨s, hs, rfl⟩ := List.mem_map.mp hrow
    rw [logRow_length, hlen s hs]
  · intro row hrow
    obtain ⟨s, hs, rfl⟩ := List.mem_map.mp hrow
    rw [percentage_returns_length, hlen s hs]
  · intro k hk t ht1 ht2
    have hsl : (hist.getD k []).length = L :=
      hlen _ (List.getD_eq_getElem hist [] hk ▸ List.getElem_mem hk)
    rw [getD_map_of_lt logRow hist k hk [], getD_map_of_lt percentage_returns hist k hk []]
    exact ⟨logRow_getD ht1 (by omega), percentage_returns_getD ht1 (by omega)⟩

/-- Witness for C1 at the concrete two-series input [[100, 110, 121], [50, 55, 60]]. -/
theorem create_returns_matrix_shape_and_entries_witness :
    (2 ≤ 3) ∧
    (∃ eR lM pM,
      create_returns [[100, 110, 121], [50, 55, 60]] = .ok (eR, lM, pM) ∧
      lM.length = 2 ∧ pM.length = 2 ∧
      (∀ row ∈ lM, row.length = 2) ∧
      (∀ row ∈ pM, row.length = 2) ∧
      (∀ k, k < ([[(100 : ℚ), 110, 121], [50, 55, 60]] : List (List ℚ)).length →
        ∀ t, 1 ≤ t → t ≤ 2 →
        (lM.getD k []).getD (t - 1) 0 =
          Real.log ((([[(100 : ℚ), 110, 121], [50, 55, 60]].getD k []).getD t 0 : ℝ) /
            (([[(100 : ℚ), 110, 121], [50, 55, 60]].getD k []).getD (t - 1) 0 : ℝ)) ∧
        (pM.getD k []).getD (t - 1) 0 =
          100 * (([[(100 : ℚ), 110, 121], [50, 55, 60]].getD k []).getD t 0 -
              ([[(100 : ℚ), 110, 121], [50, 55, 60]].getD k []).getD (t - 1) 0) /
            ([[(100 : ℚ), 110, 121], [50, 55, 60]].getD k []).getD (t - 1) 0)) := by
  constructor
  · norm_num
  · have h := create_returns_matrix_shape_and_entries
      [[100, 110, 121], [50, 55, 60]] 3 (by norm_num) (by decide) (by decide)
    simpa using h

theorem sum_map_range' (f : ℕ → ℚ) (s n : ℕ) :
    ((List.range' s n).map f).sum = ∑ j in Finset.range n, f (s + j) := by
  induction n generalizing s with
  | zero => simp
  | succ n ih =>
      rw [List.range'_succ, List.map_cons, List.sum_cons, ih, Finset.sum_range_succ']
      simp [Nat.add_comm, Nat.add_assoc, Nat.add_left_comm]
      exact add_comm _ _

theorem future_expected_returns_eq {close : List ℚ} (hL : 2 ≤ close.length) :
    future_expected_returns close =
      some ((∑ j in Finset.range (close.length - 1),
          100 * (close.getD (j + 1) 0 - close.getD j 0) / close.getD j 0 /
            ((close.length : ℚ) - ((j : ℚ) + 1))) /
        ((close.length : ℚ) - 1)) := by
  unfold future_expected_returns npMean
  rw [if_neg (by simp [List.isEmpty_iff, List.map_eq_nil_iff, List.range'_eq_nil]; omega)]
  congr 1
  rw [sum_map_range']
  rw [List.length_map, List.length_range']
  have hc : ((close.length - 1 : ℕ) : ℚ) = (close.length : ℚ) - 1 := by
    push_cast [Nat.cast_sub (by omega : 1 ≤ close.length)]
    ring
  rw [hc]
  congr 1
  refine Finset.sum_congr rfl fun j _ => ?_
  have h1 : 1 + j - 1 = j := by omega
  have h2 : 1 + j = j + 1 := by omega
  rw [h1, h2, calculate_percentage_change]
  push_cast
  ring

/-- C2: for a price series of length L >= 2 with strictly positive prices,
the expected-return scalar produced by create_returns is the arithmetic mean
over t = 1..L-1 of (100*(price[t]-price[t-1])/price[t-1]) / (L - t), the
recency-weighted mean whose divisor shrinks as t grows (t = j + 1 below). -/
theorem create_returns_expected_return_recency_weighted
    (close : List ℚ) (hL : 2 ≤ close.length) (hpos : ∀ p ∈ close, 0 < p) :
    ∃ lM pM, create_returns [close] =
      .ok ([some ((∑ j in Finset.range (close.length - 1),
          100 * (close.getD (j + 1) 0 - close.getD j 0) / close.getD j 0 /
            ((close.length : ℚ) - ((j : ℚ) + 1))) /
        ((close.length : ℚ) - 1))], lM, pM) := by
  refine ⟨[logRow close], [percentage_returns close], ?_⟩
  rw [create_returns_ok (by simpa using (⟨hL, hpos⟩ : validSeries close))]
  simp [future_expected_returns_eq hL]

/-- Witness for C2 at the series [100, 110, 121]: the recency-weighted mean
is (10/2 + 10/1) / 2 = 15/2. -/
theorem create_returns_expected_return_recency_weighted_witness :
    (2 ≤ ([(100 : ℚ), 110, 121] : List ℚ).length) ∧
    (∃ lM pM, create_returns [[(100 : ℚ), 110, 121]] =
      .ok ([some ((∑ j in Finset.range (([(100 : ℚ), 110, 121] : List ℚ).length - 1),
          100 * (([(100 : ℚ), 110, 121] : List ℚ).getD (j + 1) 0 -
              ([(100 : ℚ), 110, 121] : List ℚ).getD j 0) /
            ([(100 : ℚ), 110, 121] : List ℚ).getD j 0 /
            ((([(100 : ℚ), 110, 121] : List ℚ).length : ℚ) - ((j : ℚ) + 1))) /
        ((([(100 : ℚ), 110, 121] : List ℚ).length : ℚ) - 1))], lM, pM)) :=
  ⟨by norm_num, create_returns_expected_return_recency_weighted
    [(100 : ℚ), 110, 121] (by norm_num) (by decide)⟩

theorem exceptMap_error_of_mem {α β : Type _} {f : α → Except PyErr β}
    {l : List α} {a : α} (ha : a ∈ l) (he : ∃ e, f a = .error e) :
    ∃ e, exceptMap f l = .error e := by
  induction l with
  | nil => cases ha
  | cons b l ih =>
      rcases List.mem_cons.mp ha with rfl | hmem
      · obtain ⟨e, hea⟩ := he
        exact ⟨e, by simp [exceptMap, hea, Bind.bind, Except.bind]⟩
      · cases hfb : f b with
        | error e => exact ⟨e, by simp [exceptMap, hfb, Bind.bind, Except.bind]⟩
        | ok v =>
            obtain ⟨e, hrec⟩ := ih hmem
            exact ⟨e, by simp [exceptMap, hfb, hrec, Bind.bind, Except.bind]⟩

theorem logReturnElem_zeroDiv {close : List ℚ} {i : ℕ}
    (h : close.getD (i - 1) 0 = 0) :
    logReturnElem close i = .error .zeroDivisionError := by
  unfold logReturnElem
  rw [if_pos h]

theorem logReturnElem_error_of_zero_num {close : List ℚ} {i : ℕ}
    (h : close.getD i 0 = 0) : ∃ e, logReturnElem close i = .error e := by
  unfold logReturnElem
  by_cases hd : close.getD (i - 1) 0 = 0
  · exact ⟨.zeroDivisionError, by rw [if_pos hd]⟩
  · exact ⟨.valueError, by rw [if_neg hd, if_pos (by rw [h, zero_div])]⟩

theorem log_returns_error_of_zero {close : List ℚ} (hL : 2 ≤ close.length)
    (h0 : (0 : ℚ) ∈ close) : ∃ e, log_returns close = .error e := by
  obtain ⟨k, hk, hk0⟩ := List.getElem_of_mem h0
  have hkD : close.getD k 0 = 0 := by rw [List.getD_eq_getElem close 0 hk, hk0]
  unfold log_returns
  by_cases hcase : k + 2 ≤ close.length
  · refine exceptMap_error_of_mem (a := k + 1) ?_ ?_
    · exact List.mem_range'_1.mpr ⟨by omega, by omega⟩
    · exact ⟨.zeroDivisionError, logReturnElem_zeroDiv (by simpa using hkD)⟩
  · refine exceptMap_error_of_mem (a := k) ?_ ?_
    · exact List.mem_range'_1.mpr ⟨by omega, by omega⟩
    · exact logReturnElem_error_of_zero_num hkD

/-- Counterexample to C3 as stated: the series [-1, -2] has only negative
closing prices, yet create_returns raises nothing and returns full matrices
(both adjacent-price ratios are positive, so math.log succeeds). -/
theorem create_returns_accepts_all_negative_series :
    create_returns [[(-1 : ℚ), -2]] = .ok ([some 100], [[Real.log 2]], [[100]]) := by
  norm_num [create_returns, processSeries, log_returns, logReturnElem, exceptMap,
    percentage_returns, future_expected_returns, npMean, calculate_percentage_change,
    List.range', Bind.bind, Except.bind]

/-- C3 amended: a zero closing price in a series of length at least 2 always
makes create_returns raise a Python exception (ZeroDivisionError when the
zero is used as a divisor, ValueError from math.log otherwise) before any
matrix is returned; no DataIntegrityError exists, and a series whose
negative prices keep every adjacent ratio positive is not rejected. -/
theorem create_returns_error_on_zero_price (hist : List (List ℚ))
    (h : ∃ s ∈ hist, 2 ≤ s.length ∧ (0 : ℚ) ∈ s) :
    ∃ e, create_returns hist = .error e := by
  obtain ⟨s, hs, hL, h0⟩ := h
  obtain ⟨e, he⟩ := log_returns_error_of_zero hL h0
  have hps : processSeries s = .error e := by
    unfold processSeries
    rw [he]
    rfl
  obtain ⟨e', he'⟩ := exceptMap_error_of_mem hs ⟨e, hps⟩
  refine ⟨e', ?_⟩
  unfold create_returns
  rw [he']
  rfl

/-- Witness for the amended C3 at the input [[1, 0]]. -/
theorem create_returns_error_on_zero_price_witness :
    (∃ s ∈ ([[(1 : ℚ), 0]] : List (List ℚ)), 2 ≤ s.length ∧ (0 : ℚ) ∈ s) ∧
    (∃ e, create_returns [[(1 : ℚ), 0]] = .error e) :=
  ⟨by decide, create_returns_error_on_zero_price [[(1 : ℚ), 0]] (by decide)⟩

/-- Counterexample to C4 as stated: a single-observation series does not
raise; create_returns returns empty return rows and a NaN (none) expected
return for it. -/
theorem create_returns_short_series_returns :
    create_returns [[(5 : ℚ)]] = .ok ([none], [[]], [[]]) := by
  norm_num [create_returns, processSeries, log_returns, logReturnElem, exceptMap,
    percentage_returns, future_expected_returns, npMean, List.range',
    Bind.bind, Except.bind]

/-- C4 amended: series with fewer than 2 observations are not rejected:
create_returns returns normally, contributing an empty row to each return
matrix and a NaN (none, from np.mean of an empty list) expected-return
entry per series; no InsufficientHistoryError exists. -/
theorem processSeries_short {s : List ℚ} (h : s.length < 2) :
    processSeries s = .ok (none, [], []) := by
  have hr : List.range' 1 (s.length - 1) = [] := by
    rw [List.range'_eq_nil]
    omega
  simp [processSeries, log_returns, exceptMap, hr, future_expected_returns,
    percentage_returns, npMean, Bind.bind, Except.bind]

theorem create_returns_short_series_no_error (hist : List (List ℚ))
    (h : ∀ s ∈ hist, s.length < 2) :
    create_returns hist = .ok (hist.map fun _ => none, hist.map fun _ => [],
      hist.map fun _ => []) := by
  unfold create_returns
  rw [exceptMap_ok hist (g := fun _ => ((none : Option ℚ), ([] : List ℝ), ([] : List ℚ)))
    (fun s hs => processSeries_short (h s hs))]
  simp [Bind.bind, Except.bind]

/-- Witness for the amended C4 at the input [[5]]. -/
theorem create_returns_short_series_no_error_witness :
    (∀ s ∈ ([[(5 : ℚ)]] : List (List ℚ)), s.length < 2) ∧
    create_returns [[(5 : ℚ)]] = .ok ([none], [[]], [[]]) :=
  ⟨by decide, create_returns_short_series_no_error [[(5 : ℚ)]] (by decide)⟩

/-- Reindexing of a list by a map on positions: entry i of the result is
entry sigma i of the input (positions are in bounds by the Fin type). -/
def permuteL {α : Type _} [Inhabited α] {n : ℕ} (σ : Fin n → Fin n)
    (l : List α) : List α :=
  (List.finRange n).map fun i => l.getD (σ i) default

theorem permuteL_map {α β : Type _} [Inhabited α] [Inhabited β] {n : ℕ}
    (σ : Fin n → Fin n) (l : List α) (hn : l.length = n) (f : α → β) :
    permuteL σ (l.map f) = (permuteL σ l).map f := by
  unfold permuteL
  rw [List.map_map]
  refine List.map_congr_left fun i _ => ?_
  have h : (σ i : ℕ) < l.length := hn ▸ (σ i).isLt
  exact getD_map_of_lt f l _ h default default

/-- C9: for valid price series, create_returns is equivariant under any
permutation of the asset list: the expected-return vector and the rows of
both return matrices are permuted by the same permutation, so each asset's
outputs depend only on its own series. -/
theorem create_returns_permutation_equivariant {n : ℕ}
    (σ : Equiv.Perm (Fin n)) (hist : List (List ℚ)) (hn : hist.length = n)
    (hv : ∀ s ∈ hist, validSeries s)
    (eR : List (Option ℚ)) (lM : List (List ℝ)) (pM : List (List ℚ))
    (hok : create_returns hist = .ok (eR, lM, pM)) :
    create_returns (permuteL (fun i => σ i) hist) =
      .ok (permuteL (fun i => σ i) eR, permuteL (fun i => σ i) lM,
        permuteL (fun i => σ i) pM) := by
  have hmem : ∀ s ∈ permuteL (fun i => σ i) hist, validSeries s := by
    intro s hs
    obtain ⟨i, _, rfl⟩ := List.mem_map.mp hs
    have h : ((σ i : Fin n) : ℕ) < hist.length := hn ▸ (σ i).isLt
    rw [List.getD_eq_getElem hist default h]
    exact hv _ (List.getElem_mem h)
  rw [create_returns_ok hmem, create_returns_ok hv] at *
  have h := Except.ok.inj hok
  have h1 : hist.map future_expected_returns = eR := congrArg Prod.fst h
  have h2 : hist.map logRow = lM := congrArg (fun p => p.2.1) h
  have h3 : hist.map percentage_returns = pM := congrArg (fun p => p.2.2) h
  rw [← h1, ← h2, ← h3,
    permuteL_map _ hist hn future_expected_returns,
    permuteL_map _ hist hn logRow,
    permuteL_map _ hist hn percentage_returns]

/-- Witness for C9: swapping the two assets [1, 2] and [4, 5] swaps the
expected returns and the matrix rows identically. -/
theorem create_returns_permutation_equivariant_witness :
    (([[(1 : ℚ), 2], [4, 5]] : List (List ℚ)).length = 2) ∧
    (∀ s ∈ ([[(1 : ℚ), 2], [4, 5]] : List (List ℚ)), validSeries s) ∧
    create_returns [[(1 : ℚ), 2], [4, 5]] =
      .ok ([some 100, some 25], [[Real.log 2], [Real.log (5 / 4)]], [[100], [25]]) ∧
    create_returns (permuteL (fun i => Equiv.swap (0 : Fin 2) 1 i) [[(1 : ℚ), 2], [4, 5]]) =
      .ok (permuteL (fun i => Equiv.swap (0 : Fin 2) 1 i) [some 100, some 25],
        permuteL (fun i => Equiv.swap (0 : Fin 2) 1 i) [[Real.log 2], [Real.log (5 / 4)]],
        permuteL (fun i => Equiv.swap (0 : Fin 2) 1 i) [[(100 : ℚ)], [25]]) := by
  have hok : create_returns [[(1 : ℚ), 2], [4, 5]] =
      .ok ([some 100, some 25], [[Real.log 2], [Real.log (5 / 4)]], [[100], [25]]) := by
    norm_num [create_returns, processSeries, log_returns, logReturnElem, exceptMap,
      percentage_returns, future_expected_returns, npMean, calculate_percentage_change,
      List.range', Bind.bind, Except.bind]
  exact ⟨rfl, by decide, hok,
    create_returns_permutation_equivariant (Equiv.swap (0 : Fin 2) 1)
      [[(1 : ℚ), 2], [4, 5]] rfl (by decide) _ _ _ hok⟩

/-- Mean of one row, as np.cov computes it per variable. -/
def rowMean (r : List ℚ) : ℚ := r.sum / r.length

/-- One entry of np.cov: the (ddof = 1) sample covariance of two rows. -/
def covEntry (a b : List ℚ) : ℚ :=
  (List.zipWith (fun x y => (x - rowMean a) * (y - rowMean b)) a b).sum /
    ((a.length : ℚ) - 1)

/-- np.cov of a 2D array whose rows are the variables and whose columns are
the observations, with the default ddof = 1. -/
def npCov (m : List (List ℚ)) : List (List ℚ) :=
  m.map fun ri => m.map fun rj => covEntry ri rj

/-- Lines 161-169 of run_strategies: covariance_matrix = np.cov(returns_matrix);
if APPLY_NOISE_FILTERING, covariance_matrix is replaced by
strategyManager.random_matrix_theory_based_cov(returns_matrix) - note the
argument of the external filter is returns_matrix, not the covariance.  The
result is the covariance estimate handed to the four strategy calls. -/
def covariance_for_strategies (applyNoiseFiltering : Bool)
    (random_matrix_theory_based_cov : List (List ℚ) → List (List ℚ))
    (returns_matrix : List (List ℚ)) : List (List ℚ) :=
  let covariance_matrix := npCov returns_matrix
  if applyNoiseFiltering then random_matrix_theory_based_cov returns_matrix
  else covariance_matrix

theorem covEntry_comm {a b : List ℚ} (h : a.length = b.length) :
    covEntry a b = covEntry b a := by
  unfold covEntry
  rw [h]
  congr 1
  rw [List.zipWith_comm]
  have hf : (fun u v => (v - rowMean a) * (u - rowMean b)) =
      fun u v => (u - rowMean b) * (v - rowMean a) := by
    funext u v
    exact mul_comm _ _
  rw [hf]

theorem npCov_entry (m : List (List ℚ)) {i j : ℕ} (hi : i < m.length)
    (hj : j < m.length) :
    ((npCov m).getD i []).getD j 0 = covEntry (m.getD i []) (m.getD j []) := by
  unfold npCov
  rw [getD_map_of_lt _ m i hi []]
  exact getD_map_of_lt _ m j hj [] 0

/-- Counterexample to C5 as stated: with the identity as the (externally
supplied) noise filter and the 2x2 returns matrix [[1,2],[3,5]], the value
handed to the strategies is the returns matrix itself, not the filter
applied to np.cov of it: line 168 passes returns_matrix to the filter. -/
theorem covariance_filter_not_applied_to_covariance :
    covariance_for_strategies true id [[(1 : ℚ), 2], [3, 5]] ≠
      id (npCov [[(1 : ℚ), 2], [3, 5]]) := by
  norm_num [covariance_for_strategies, npCov, covEntry, rowMean]

/-- C5 amended: when the noise-filtering flag is set, the covariance
estimate handed to the strategies is the external filter applied to the
log-returns matrix itself (rows = assets), not to the covariance matrix;
the unfiltered np.cov estimate - which, for aligned rows, is a square
symmetric matrix of dimension the asset count - is discarded. -/
theorem covariance_filter_receives_returns_matrix
    (f : List (List ℚ) → List (List ℚ)) (rm : List (List ℚ)) (T : ℕ)
    (hrect : ∀ row ∈ rm, row.length = T) :
    covariance_for_strategies true f rm = f rm ∧
    (npCov rm).length = rm.length ∧
    (∀ row ∈ npCov rm, row.length = rm.length) ∧
    (∀ i j, i < rm.length → j < rm.length →
      ((npCov rm).getD i []).getD j 0 = ((npCov rm).getD j []).getD i 0) := by
  refine ⟨rfl, by simp [npCov], ?_, ?_⟩
  · intro row hrow
    obtain ⟨ri, _, rfl⟩ := List.mem_map.mp hrow
    simp
  · intro i j hi hj
    rw [npCov_entry rm hi hj, npCov_entry rm hj hi]
    refine covEntry_comm ?_
    have hi' : rm.getD i [] ∈ rm := List.getD_eq_getElem rm [] hi ▸ List.getElem_mem hi
    have hj' : rm.getD j [] ∈ rm := List.getD_eq_getElem rm [] hj ▸ List.getElem_mem hj
    rw [hrect _ hi', hrect _ hj']

/-- Witness for the amended C5 at the filter id and matrix [[1,2],[3,5]]. -/
theorem covariance_filter_receives_returns_matrix_witness :
    (∀ row ∈ ([[(1 : ℚ), 2], [3, 5]] : List (List ℚ)), row.length = 2) ∧
    (covariance_for_strategies true id [[(1 : ℚ), 2], [3, 5]] =
        id [[(1 : ℚ), 2], [3, 5]] ∧
      (npCov [[(1 : ℚ), 2], [3, 5]]).length =
        ([[(1 : ℚ), 2], [3, 5]] : List (List ℚ)).length ∧
      (∀ row ∈ npCov [[(1 : ℚ), 2], [3, 5]],
        row.length = ([[(1 : ℚ), 2], [3, 5]] : List (List ℚ)).length) ∧
      (∀ i j, i < ([[(1 : ℚ), 2], [3, 5]] : List (List ℚ)).length →
        j < ([[(1 : ℚ), 2], [3, 5]] : List (List ℚ)).length →
        ((npCov [[(1 : ℚ), 2], [3, 5]]).getD i []).getD j 0 =
          ((npCov [[(1 : ℚ), 2], [3, 5]]).getD j []).getD i 0)) :=
  ⟨by decide, covariance_filter_receives_returns_matrix id [[(1 : ℚ), 2], [3, 5]] 2
    (by decide)⟩

/-- A collaborator call issued by Eiten.run_strategies after the four weight
dictionaries have been obtained; W is the type of the opaque weight
dictionaries that the external strategy manager returned. -/
inductive Ev (W : Type) where
  | printWeights (w : W) (strategy : String) (plotNum : ℕ)
  | drawPlot (filename : String)
  | backTest (w : W) (strategy : String) (marketChart : Bool)
  | futureTest (w : W) (strategy : String) (marketChart : Bool)
  | simulatePortfolio (w : W) (strategy : String) (marketChart : Bool)
  deriving DecidableEq

/-- Lines 181-228 of Eiten.run_strategies: the exact sequence of printing,
plotting, backtest, future-test and simulation calls, with the weight
dictionary each call receives.  The future-test block is guarded by IS_TEST;
the simulation calls for MVP and MSR pass eigen_w, as the source does. -/
def run_strategies_calls {W : Type} (is_test : Bool)
    (eigen_w mvp_w msr_w ga_w : W) : List (Ev W) :=
  [Ev.printWeights eigen_w "Eigen Portfolio" 1,
   Ev.printWeights mvp_w "Minimum Variance Portfolio (MVP)" 2,
   Ev.printWeights msr_w "Maximum Sharpe Portfolio (MSR)" 3,
   Ev.printWeights ga_w "Genetic Algo (GA)" 4,
   Ev.drawPlot "output/weights.png",
   Ev.backTest eigen_w "Eigen Portfolio" true,
   Ev.backTest mvp_w "Minimum Variance Portfolio (MVP)" false,
   Ev.backTest msr_w "Maximum Sharpe Portfolio (MSR)" false,
   Ev.backTest ga_w "Genetic Algo (GA)" false,
   Ev.drawPlot "output/backtest.png"] ++
  (if is_test then
    [Ev.futureTest eigen_w "Eigen Portfolio" true,
     Ev.futureTest mvp_w "Minimum Variance Portfolio (MVP)" false,
     Ev.futureTest msr_w "Maximum Sharpe Portfolio (MSR)" false,
     Ev.futureTest ga_w "Genetic Algo (GA)" false,
     Ev.drawPlot "output/future_tests.png"]
   else []) ++
  [Ev.simulatePortfolio eigen_w "Eigen Portfolio" true,
   Ev.simulatePortfolio eigen_w "Minimum Variance Portfolio (MVP)" false,
   Ev.simulatePortfolio eigen_w "Maximum Sharpe Portfolio (MSR)" false,
   Ev.simulatePortfolio ga_w "Genetic Algo (GA)" false,
   Ev.drawPlot "output/monte_carlo.png"]

/-- Counterexample to C6 as stated: with symbols A and B, a minimum-variance
mapping covering only A flows straight to its backtest call: no validation
step exists between the strategy calls and downstream use, and no strategy
is marked failed. -/
theorem deficient_weight_mapping_used_downstream :
    Ev.backTest [("A", (1 : ℚ))] "Minimum Variance Portfolio (MVP)" false ∈
      run_strategies_calls false [("A", (1 : ℚ)), ("B", 1)] [("A", 1)]
        [("A", 1), ("B", 1)] [("A", 1), ("B", 1)] := by
  simp [run_strategies_calls]

/-- C6 amended: run_strategies performs no key-set validation at all:
whatever dictionary each strategy returned - including one missing or
adding symbols - is printed and handed to that strategy's backtest call
unchanged (no ContractViolationError exists), and the other strategies'
calls are issued likewise. -/
theorem run_strategies_no_weight_validation {W : Type} (is_test : Bool)
    (eigen_w mvp_w msr_w ga_w : W) :
    Ev.printWeights mvp_w "Minimum Variance Portfolio (MVP)" 2 ∈
      run_strategies_calls is_test eigen_w mvp_w msr_w ga_w ∧
    Ev.backTest mvp_w "Minimum Variance Portfolio (MVP)" false ∈
      run_strategies_calls is_test eigen_w mvp_w msr_w ga_w ∧
    Ev.backTest eigen_w "Eigen Portfolio" true ∈
      run_strategies_calls is_test eigen_w mvp_w msr_w ga_w ∧
    Ev.backTest msr_w "Maximum Sharpe Portfolio (MSR)" false ∈
      run_strategies_calls is_test eigen_w mvp_w msr_w ga_w ∧
    Ev.backTest ga_w "Genetic Algo (GA)" false ∈
      run_strategies_calls is_test eigen_w mvp_w msr_w ga_w := by
  refine ⟨?_, ?_, ?_, ?_, ?_⟩ <;> simp [run_strategies_calls]

/-- C7: when is_test is false the future-test phase never executes: no
futureTest call (the collaborator invocation that consumes future prices
per strategy) occurs anywhere in the run's call sequence. -/
theorem no_future_test_when_not_test {W : Type} (eigen_w mvp_w msr_w ga_w : W)
    (w : W) (strategy : String) (mc : Bool) :
    Ev.futureTest w strategy mc ∉
      run_strategies_calls false eigen_w mvp_w msr_w ga_w := by
  simp [run_strategies_calls]

/-- C8 fails in the code: lines 220-225 invoke the simulation phase for the
Minimum Variance and Maximum Sharpe strategies with
eigen_portfolio_weights_dictionary, not with those strategies' own weights
(backtest and future-test do use each strategy's own dictionary).  With the
distinct opaque weights 0,1,2,3 for eigen, MVP, MSR, GA: the MVP and MSR
simulation calls carry 0, never 1 or 2, while the MVP backtest carries 1. -/
theorem simulate_uses_eigen_weights_for_mvp_and_msr :
    Ev.simulatePortfolio 0 "Minimum Variance Portfolio (MVP)" false ∈
      run_strategies_calls true (0 : ℕ) 1 2 3 ∧
    Ev.simulatePortfolio 1 "Minimum Variance Portfolio (MVP)" false ∉
      run_strategies_calls true (0 : ℕ) 1 2 3 ∧
    Ev.simulatePortfolio 0 "Maximum Sharpe Portfolio (MSR)" false ∈
      run_strategies_calls true (0 : ℕ) 1 2 3 ∧
    Ev.simulatePortfolio 2 "Maximum Sharpe Portfolio (MSR)" false ∉
      run_strategies_calls true (0 : ℕ) 1 2 3 ∧
    Ev.backTest 1 "Minimum Variance Portfolio (MVP)" false ∈
      run_strategies_calls true (0 : ℕ) 1 2 3 := by
  refine ⟨?_, ?_, ?_, ?_, ?_⟩ <;> simp [run_strategies_calls]

/-- The command-line arguments read by ArgChecker.check_arguments. -/
structure Args where
  data_granularity_minutes : ℤ
  is_test : ℤ
  future_bars : ℤ
  history_to_use : String
  history_to_use_int : ℤ

/-- Which assert of check_arguments fired. -/
inductive ArgError where
  | granularity
  | futureBars
  | history
  deriving DecidableEq

/-- ArgChecker.check_arguments: its three asserts in order; the first whose
condition is violated raises AssertionError (identified by which assert). -/
def check_arguments (a : Args) : Except ArgError Unit :=
  if a.data_granularity_minutes ∉ ([1, 5, 10, 15, 30, 60, 3600] : List ℤ) then
    .error .granularity
  else if a.is_test = 1 ∧ a.future_bars < 2 then .error .futureBars
  else if a.history_to_use ≠ "all" ∧ a.history_to_use_int < a.future_bars then
    .error .history
  else .ok ()

/-- C10: check_arguments fails its granularity assertion exactly for
data_granularity_minutes outside {1, 5, 10, 15, 30, 60, 3600}; for those
seven values that assertion passes (any later failure is a different
assert, reported as a different ArgError). -/
theorem check_arguments_granularity (a : Args) :
    check_arguments a = .error .granularity ↔
      a.data_granularity_minutes ∉ ([1, 5, 10, 15, 30, 60, 3600] : List ℤ) := by
  unfold check_arguments
  split_ifs with h1 h2 h3 <;> simp [h1]
